import Mathlib

/-!
Verification of the evaluator core of the small scripting language in
src/language/interpreter.cc (the culebra-style example interpreter).

The evaluator is embedded shallowly:

* `Ast` mirrors the parsed tree shapes that `Eval::eval` dispatches on
  (`STATEMENTS`, `WHILE`, `IF`, `FUNCTION`, `CALL`, `ASSIGNMENT`,
  `LOGICAL_OR`, `LOGICAL_AND`, unary nodes, `ADDITIVE`/`MULTIPLICATIVE`
  as `binExpr`, `IDENTIFIER`, `OBJECT`, `ARRAY`, `NUMBER`, `BOOLEAN`).
  The `CONDITION` and `INTERPOLATED_STRING` node kinds are omitted: their
  semantics lives entirely in the comparison and `str()` contracts of the
  `Value` header, which is not part of the source under verification, and
  no verified property concerns them.  Postfix nodes of a `CALL` chain are
  distinguished by their original tag in the source; they are embedded as
  the separate type `Step`.

* C++ `long` numbers are modelled as unbounded `Int` (the specification
  leaves the overflow policy to the implementer); `a / b` and `a % b` are
  C++ truncated division and remainder, i.e. `Int.tdiv` / `Int.tmod`, and
  a zero divisor — undefined behavior in the source, which performs the
  native division unguarded — is modelled as the non-recoverable outcome
  `Error.crash`.

* `Value` and `Environment` are declared in a header that is not part of
  the sources; their operations (`to_bool`, `to_long`, `to_function`,
  `to_array`, `get_property`, `has`, `get`, `assign`, `initialize`,
  `append_outer`, `set_object`) are modelled from the specification, §4.1
  and §4.2.  Environments are modelled as values threaded through
  evaluation (a chain of scopes, innermost first); `append_outer` splices
  the captured defining chain after the current one, which realises the
  depth-first lookup order of the specification.  `ObjectValue.properties`
  is an associative map and the source inserts with `emplace`, which never
  overwrites an existing key; `emplaceProp` reproduces that.

* The C++ evaluator recurses through closures (a `CALL` evaluates a body
  stored inside a Function value, not a subterm of the call node), so the
  embedding is fuel-indexed: `eval fuel ast env` spends one unit of fuel
  per recursive evaluation step and yields `Error.stackOverflow` when the
  fuel is exhausted, matching the host-stack exhaustion discussed in §5.
-/

namespace Culebra

/-- Error kinds of §7 of the specification.  `crash` is the outcome of
undefined behavior (an unguarded division by zero in
`eval_bin_expression`); `divisionByZero` is the recoverable error the
specification recommends, which the source never produces. -/
inductive Error where
  | typeMismatch
  | unboundName
  | immutableBinding
  | argumentError
  | divisionByZero
  | stackOverflow
  | crash
  deriving DecidableEq, Repr

/-- Formal parameter of a function literal: name plus `mut` flag
(`FunctionValue::Parameter` in the missing header, §3). -/
structure Param where
  name : String
  mutFlag : Bool
  deriving DecidableEq, Repr

/-- Binary operator token of an `ADDITIVE` / `MULTIPLICATIVE` node.  In the
source the operator is a token child evaluated to a one-character string;
the token itself is effect-free, so it is embedded as data. -/
inductive BinOp where
  | add
  | sub
  | mul
  | div
  | mod
  deriving DecidableEq, Repr

mutual

/-- Parsed tree shapes dispatched by `Eval::eval`.  A `call` node carries
the source line/column of the whole node (`ast.line` / `ast.column`), read
when injecting `__LINE__` / `__COLUMN__`.  An `assignment` node's first
child is the mutability qualifier token (compared against the literal
string `mut` by `eval_assignment`), its second the target identifier
token, its third the right-hand expression.  A `function` node's
parameter list pairs the qualifier token with the parameter name, as in
`eval_function`. -/
inductive Ast where
  | statements (nodes : List Ast)
  | whileLoop (cond : Ast) (body : Ast)
  | ifExpr (nodes : List Ast)
  | function (params : List (String × String)) (body : Ast)
  | call (line : Int) (column : Int) (prim : Ast) (steps : List Step)
  | assignment (qual : String) (name : String) (rhs : Ast)
  | logicalOr (nodes : List Ast)
  | logicalAnd (nodes : List Ast)
  | unaryPlus (operand : Ast)
  | unaryMinus (operand : Ast)
  | unaryNot (operand : Ast)
  | binExpr (first : Ast) (rest : List (BinOp × Ast))
  | identifier (name : String)
  | object (props : List (String × Ast))
  | array (elems : List Ast)
  | number (n : Int)
  | boolean (b : Bool)

/-- One postfix operation of a `CALL` chain, distinguished in the source by
`original_tag` (`ARGUMENTS`, `INDEX`, `DOT`). -/
inductive Step where
  | arguments (args : List Ast)
  | index (idxExpr : Ast)
  | dot (name : String)

end

mutual

/-- Run-time datum (§3).  Arrays and objects are modelled by their
contents; `unit` is the absence-of-value result of statements. -/
inductive Value where
  | number (n : Int)
  | boolean (b : Bool)
  | str (s : String)
  | array (elems : List Value)
  | object (props : List (String × Value))
  | function (params : List Param) (behavior : FnBehavior)
  | unit

/-- Invocation behavior stored in a Function value, defunctionalised from
the two lambdas of the source: `closure` is built by `eval_function`
(capture of body and defining environment, spliced onto the call
environment with `append_outer`); `boundMethod` is built by the `DOT`
branch of `eval_call` (bind `this` to the receiver, attach the receiver
object, then run the inner behavior). -/
inductive FnBehavior where
  | closure (body : Ast) (defEnv : List Scope)
  | boundMethod (receiver : Value) (inner : FnBehavior)

/-- One scope of an environment chain: its own bindings
(name, value, mutable), newest first, plus the optional receiver object
attached by `set_object`. -/
inductive Scope where
  | mk (bindings : List (String × Value × Bool)) (obj : Option (List (String × Value)))

end

/-- Environment: the lookup chain of §4.2, innermost scope first.  The
source's tree of `outers` links is consulted depth-first on lookup miss;
the chain lists the scopes in exactly that search order. -/
abbrev Env := List Scope

/-- Evaluation result: a value plus the updated environment chain, or an
error (§7: every failure aborts the whole evaluation). -/
abbrev Res := Except Error (Value × Env)

namespace Value

/-- Tag-checked accessor (§4.1): only an actual Boolean converts. -/
def to_bool : Value → Except Error Bool
  | .boolean b => .ok b
  | _ => .error .typeMismatch

/-- Tag-checked accessor (§4.1): only a Number converts. -/
def to_long : Value → Except Error Int
  | .number n => .ok n
  | _ => .error .typeMismatch

/-- Tag-checked accessor (§4.1): only a Function converts. -/
def to_function : Value → Except Error (List Param × FnBehavior)
  | .function ps bh => .ok (ps, bh)
  | _ => .error .typeMismatch

/-- Tag-checked accessor (§4.1): only an Array converts. -/
def to_array : Value → Except Error (List Value)
  | .array elems => .ok elems
  | _ => .error .typeMismatch

end Value

/-- First binding of a property list (keys are unique by construction, see
`emplaceProp`). -/
def findProp : List (String × Value) → String → Option Value
  | [], _ => none
  | (k, v) :: rest, x => if k = x then some v else findProp rest x

/-- Modelled from the spec: `Value::get_property` is declared in the
missing header; §4.4 fixes only lookup in an Object's property map (an
absent name yields the absence-of-value) and §4.4's closing rule makes a
kind-mismatched receiver a `TypeMismatch`. -/
def Value.get_property : Value → String → Except Error Value
  | .object props, x =>
    match findProp props x with
    | some v => .ok v
    | none => .ok .unit
  | _, _ => .error .typeMismatch

/-- Map insertion as performed by `emplace` on the object's property map:
the pair is inserted only when the key is not yet present; an existing
key's value is left untouched. -/
def emplaceProp (props : List (String × Value)) (x : String) (v : Value) :
    List (String × Value) :=
  if (findProp props x).isSome then props else props ++ [(x, v)]

/-- First binding of a scope's binding list (newest first). -/
def findBinding : List (String × Value × Bool) → String → Option (Value × Bool)
  | [], _ => none
  | (k, vb) :: rest, x => if k = x then some vb else findBinding rest x

/-- Replace the value of the first binding of the name, keeping its
mutability flag. -/
def replaceBinding : List (String × Value × Bool) → String → Value →
    List (String × Value × Bool)
  | [], _, _ => []
  | (k, v₀, m) :: rest, x, v =>
    if k = x then (k, v, m) :: rest else (k, v₀, m) :: replaceBinding rest x v

namespace Env

/-- Modelled from the spec (§4.2): chain lookup, nearest scope first,
returning the binding's value and mutability. -/
def lookup : Env → String → Option (Value × Bool)
  | [], _ => none
  | Scope.mk bs _ :: rest, x =>
    match findBinding bs x with
    | some vb => some vb
    | none => lookup rest x

/-- Modelled from the spec (§4.2): `has` is true when the name is bound in
this scope or any outer scope. -/
def has (env : Env) (x : String) : Bool :=
  (lookup env x).isSome

/-- Modelled from the spec (§4.2): `get` searches the chain and fails with
`UnboundName` when exhausted. -/
def get (env : Env) (x : String) : Except Error Value :=
  match lookup env x with
  | some (v, _) => .ok v
  | none => .error .unboundName

/-- Modelled from the spec (§4.2): `initialize` creates a new binding in
the current scope only, shadowing outer bindings; redefinition within the
scope is not an error, the newest binding wins. -/
def define : Env → String → Value → Bool → Env
  | [], x, v, m => [Scope.mk [(x, v, m)] none]
  | Scope.mk bs o :: rest, x, v, m => Scope.mk ((x, v, m) :: bs) o :: rest

/-- Modelled from the spec (§4.2): `assign` updates the nearest scope
owning the name, fails with `ImmutableBinding` when that binding is not
mutable, and with `UnboundName` when no scope owns it. -/
def assign : Env → String → Value → Except Error Env
  | [], _, _ => .error .unboundName
  | Scope.mk bs o :: rest, x, v =>
    match findBinding bs x with
    | some (_, m) =>
      if m then .ok (Scope.mk (replaceBinding bs x v) o :: rest)
      else .error .immutableBinding
    | none => do
      let rest' ← assign rest x v
      .ok (Scope.mk bs o :: rest')

/-- Modelled from the spec (§4.2): `append_outer` adds the other chain so
that it is searched after the scopes already installed. -/
def append_outer (env other : Env) : Env :=
  env ++ other

/-- Modelled from the spec (§4.2): `set_object` attaches a receiver object
to the current scope. -/
def set_object : Env → List (String × Value) → Env
  | [], _ => []
  | Scope.mk bs _ :: rest, props => Scope.mk bs (some props) :: rest

end Env

/-- Fresh empty environment, as created for a call
(`make_shared<Environment>()`). -/
def freshEnv : Env := [Scope.mk [] none]

/-- Statement sequence (`eval_statements`): evaluate every child in order,
return the last child's value, `unit` for an empty sequence. -/
def evalStmts (E : Ast → Env → Res) : List Ast → Env → Res
  | [], env => .ok (.unit, env)
  | [x], env => E x env
  | x :: y :: rest, env => do
    let (_, env') ← E x env
    evalStmts E (y :: rest) env'

/-- While loop (`eval_while`): re-evaluate the condition, run the body
while it is `true`, yield `unit`.  The extra fuel bounds the number of
iterations, one unit per pass, standing in for the host execution budget. -/
def evalWhile (E : Ast → Env → Res) : Nat → Ast → Ast → Env → Res
  | 0, _, _, _ => .error .stackOverflow
  | k + 1, c, b, env => do
    let (cv, env₁) ← E c env
    let cb ← cv.to_bool
    if cb then do
      let (_, env₂) ← E b env₁
      evalWhile E k c b env₂
    else
      .ok (.unit, env₁)

/-- If chain (`eval_if`): children alternate condition and consequence,
with an optional trailing else child; `unit` when nothing matches. -/
def evalIf (E : Ast → Env → Res) : List Ast → Env → Res
  | [], env => .ok (.unit, env)
  | [e], env => E e env
  | c :: t :: rest, env => do
    let (cv, env') ← E c env
    let cb ← cv.to_bool
    if cb then E t env' else evalIf E rest env'

/-- Loop body of `eval_logical_or` (the two-or-more operand path): each
operand in turn is evaluated and truth-tested; the first truthy one is
returned, otherwise the last one — which is also truth-tested. -/
def evalOrList (E : Ast → Env → Res) : List Ast → Env → Res
  | [], env => .ok (.unit, env)
  | x :: xs, env => do
    let (v, env') ← E x env
    let b ← v.to_bool
    if b then .ok (v, env')
    else
      match xs with
      | [] => .ok (v, env')
      | _ :: _ => evalOrList E xs env'

/-- Loop body of `eval_logical_and`: each operand in turn is evaluated and
truth-tested; the first falsy one is returned, otherwise the last one —
which is also truth-tested. -/
def evalAndList (E : Ast → Env → Res) : List Ast → Env → Res
  | [], env => .ok (.unit, env)
  | x :: xs, env => do
    let (v, env') ← E x env
    let b ← v.to_bool
    if !b then .ok (v, env')
    else
      match xs with
      | [] => .ok (v, env')
      | _ :: _ => evalAndList E xs env'

/-- Fold of `eval_bin_expression`: the accumulator starts from the first
operand, each following operand is converted with `to_long` and combined
left-associatively.  Division and modulo are C++ truncated operations;
the source performs them unguarded, so a zero divisor is undefined
behavior, modelled as `Error.crash`. -/
def evalBinOps (E : Ast → Env → Res) : List (BinOp × Ast) → Int → Env → Res
  | [], acc, env => .ok (.number acc, env)
  | (op, a) :: rest, acc, env => do
    let (v, env') ← E a env
    let x ← v.to_long
    match op with
    | .add => evalBinOps E rest (acc + x) env'
    | .sub => evalBinOps E rest (acc - x) env'
    | .mul => evalBinOps E rest (acc * x) env'
    | .div => if x = 0 then .error .crash else evalBinOps E rest (acc.tdiv x) env'
    | .mod => if x = 0 then .error .crash else evalBinOps E rest (acc.tmod x) env'

/-- Loop of `eval_object`: each pair's expression is evaluated in source
order and inserted with `emplace`, which keeps an already-present key. -/
def evalObjectProps (E : Ast → Env → Res) :
    List (String × Ast) → List (String × Value) → Env → Res
  | [], acc, env => .ok (.object acc, env)
  | (name, e) :: rest, acc, env => do
    let (v, env') ← E e env
    evalObjectProps E rest (emplaceProp acc name v) env'

/-- Loop of `eval_array`: element expressions evaluated in source order,
results appended. -/
def evalArrayElems (E : Ast → Env → Res) :
    List Ast → List Value → Env → Res
  | [], acc, env => .ok (.array acc, env)
  | e :: rest, acc, env => do
    let (v, env') ← E e env
    evalArrayElems E rest (acc ++ [v]) env'

/-- Parameter-binding loop of the `ARGUMENTS` branch of `eval_call`: for
each declared parameter in order, the corresponding argument expression is
evaluated in the caller's environment and the result bound into the call
environment with the parameter's mutability.  Arguments beyond the
parameter list are never touched.  (The missing-argument case is
unreachable under the arity guard.) -/
def bindParams (E : Ast → Env → Res) :
    List Param → List Ast → Env → Env → Except Error (Env × Env)
  | [], _, callEnv, env => .ok (callEnv, env)
  | p :: ps, a :: args, callEnv, env => do
    let (v, env') ← E a env
    bindParams E ps args (callEnv.define p.name v p.mutFlag) env'
  | _ :: _, [], _, _ => .error .argumentError

/-- Invocation of a Function value's stored behavior on a call
environment: a `closure` splices its defining environment onto the call
environment with `append_outer` and evaluates the body there
(`eval_function`); a `boundMethod` first binds `this` (immutable) to the
receiver, attaches the receiver via `set_object` when it is an Object,
and then runs the wrapped behavior (`DOT` branch of `eval_call`). -/
def applyFn (E : Ast → Env → Res) : FnBehavior → Env → Res
  | .closure body defEnv, callEnv => E body (callEnv.append_outer defEnv)
  | .boundMethod recv inner, callEnv =>
    let ce := Env.define callEnv "this" recv false
    let ce :=
      match recv with
      | .object props => ce.set_object props
      | _ => ce
    applyFn E inner ce

/-- Chain loop of `eval_call`: the running value is transformed by each
postfix step in order.  `line` and `column` are the source position of the
whole call node, injected as `__LINE__` / `__COLUMN__` on every
`ARGUMENTS` step of the chain. -/
def evalSteps (E : Ast → Env → Res) (line column : Int) :
    List Step → Value → Env → Res
  | [], v, env => .ok (v, env)
  | .arguments args :: rest, v, env => do
    let (params, bh) ← v.to_function
    if params.length ≤ args.length then do
      let callEnv₀ := Env.define freshEnv "self" v false
      let (callEnv₁, env') ← bindParams E params args callEnv₀ env
      let callEnv₂ :=
        Env.define (Env.define callEnv₁ "__LINE__" (.number line) false)
          "__COLUMN__" (.number column) false
      match applyFn E bh callEnv₂ with
      | .ok (v', _) => evalSteps E line column rest v' env'
      | .error e => .error e
    else
      .error .argumentError
  | .index idxExpr :: rest, v, env => do
    let elems ← v.to_array
    let (iv, env') ← E idxExpr env
    let i ← iv.to_long
    if 0 ≤ i ∧ i < (elems.length : Int) then
      evalSteps E line column rest (elems.getD i.toNat .unit) env'
    else
      evalSteps E line column rest v env'
  | .dot name :: rest, v, env => do
    let prop ← v.get_property name
    match prop with
    | .function pparams pbh =>
      evalSteps E line column rest (.function pparams (.boundMethod v pbh)) env
    | _ => evalSteps E line column rest prop env

/-- Dispatch of `Eval::eval` over the node kinds, parameterised by the
evaluator `E` used for recursive evaluation (one fuel level below) and by
the fuel available to while-loop iteration.  The unary nodes are embedded
in their operator-present shape; the operator-absent shape is the bare
child and never reaches these cases. -/
def evalAst (E : Ast → Env → Res) (loopFuel : Nat) : Ast → Env → Res
  | .statements ns, env => evalStmts E ns env
  | .whileLoop c b, env => evalWhile E loopFuel c b env
  | .ifExpr ns, env => evalIf E ns env
  | .function params body, env =>
    .ok (.function (params.map fun p => ⟨p.2, p.1 == "mut"⟩) (.closure body env), env)
  | .call l c prim steps, env => do
    let (v, env') ← E prim env
    evalSteps E l c steps v env'
  | .assignment qual name rhs, env => do
    let (v, env') ← E rhs env
    if env'.has name then do
      let env'' ← env'.assign name v
      .ok (v, env'')
    else
      .ok (v, env'.define name v (qual == "mut"))
  | .logicalOr ns, env =>
    match ns with
    | [x] => E x env
    | _ => evalOrList E ns env
  | .logicalAnd ns, env => evalAndList E ns env
  | .unaryPlus a, env => E a env
  | .unaryMinus a, env => do
    let (v, env') ← E a env
    let x ← v.to_long
    .ok (.number (x * -1), env')
  | .unaryNot a, env => do
    let (v, env') ← E a env
    let b ← v.to_bool
    .ok (.boolean !b, env')
  | .binExpr first rest, env => do
    let (v, env') ← E first env
    let x ← v.to_long
    evalBinOps E rest x env'
  | .identifier name, env => do
    let v ← env.get name
    .ok (v, env)
  | .object props, env => evalObjectProps E props [] env
  | .array elems, env => evalArrayElems E elems [] env
  | .number n, env => .ok (.number n, env)
  | .boolean b, env => .ok (.boolean b, env)

/-- Fuel-indexed evaluator: `eval (n + 1)` dispatches through `evalAst`,
every recursive evaluation running at fuel `n`; exhausted fuel is the
stack-overflow outcome of §5. -/
def eval : Nat → Ast → Env → Res
  | 0, _, _ => .error .stackOverflow
  | n + 1, ast, env => evalAst (eval n) n ast env

/-! Helper notions shared by the claim theorems. -/

/-- Left-to-right sequential evaluation of a list of expressions under the
evaluator `E`, threading the environment and collecting the values. -/
inductive EvalsSeq (E : Ast → Env → Res) :
    List Ast → Env → List Value → Env → Prop where
  | nil (env : Env) : EvalsSeq E [] env [] env
  | cons {a : Ast} {as : List Ast} {env env₁ env₂ : Env} {v : Value}
      {vs : List Value} (h : E a env = .ok (v, env₁))
      (hs : EvalsSeq E as env₁ vs env₂) :
      EvalsSeq E (a :: as) env (v :: vs) env₂

theorem EvalsSeq.length_eq {E : Ast → Env → Res} {as : List Ast} {env : Env}
    {vs : List Value} {env' : Env} (h : EvalsSeq E as env vs env') :
    vs.length = as.length := by
  induction h with
  | nil => rfl
  | cons h hs ih => simpa using ih

/-- Repeated `emplace` of (name, value) pairs into a property map. -/
def emplaceAll : List (String × Value) → List (String × Value) →
    List (String × Value)
  | acc, [] => acc
  | acc, (x, v) :: rest => emplaceAll (emplaceProp acc x v) rest

theorem findProp_append (ps qs : List (String × Value)) (x : String) :
    findProp (ps ++ qs) x
      = match findProp ps x with
        | some v => some v
        | none => findProp qs x := by
  induction ps with
  | nil => simp [findProp]
  | cons p rest ih =>
    obtain ⟨k, v⟩ := p
    by_cases hk : k = x
    · simp [findProp, hk]
    · simp [findProp, hk, ih]

/-- Lookup after repeated `emplace`: a name already present keeps its
value; otherwise the first pair of the inserted list with that name
wins. -/
theorem findProp_emplaceAll (qs : List (String × Value)) :
    ∀ (acc : List (String × Value)) (x : String),
      findProp (emplaceAll acc qs) x
        = match findProp acc x with
          | some v => some v
          | none => findProp qs x := by
  induction qs with
  | nil =>
    intro acc x
    cases h : findProp acc x <;> simp [emplaceAll, findProp, h]
  | cons q rest ih =>
    intro acc x
    obtain ⟨y, v⟩ := q
    show findProp (emplaceAll (emplaceProp acc y v) rest) x = _
    rw [ih]
    cases hax : findProp acc x with
    | some w =>
      have hx : findProp (emplaceProp acc y v) x = some w := by
        unfold emplaceProp
        cases hay : findProp acc y with
        | some w' => simp [hay, hax]
        | none => simp [hay, findProp_append, hax]
      simp [hx]
    | none =>
      by_cases hyx : y = x
      · subst hyx
        have hx : findProp (emplaceProp acc y v) y = some v := by
          unfold emplaceProp
          simp [hax, findProp_append, findProp]
        simp [hx, findProp]
      · have hx : findProp (emplaceProp acc y v) x = none := by
          unfold emplaceProp
          cases hay : findProp acc y with
          | some w' => simp [hay, hax]
          | none => simp [hay, findProp_append, hax, findProp, hyx]
        simp [hx, findProp, hyx]

/-- Object-literal loop under a known sequential evaluation of the pair
expressions: the result is the `emplace` fold of the (name, value)
pairs. -/
theorem evalObjectProps_eq {E : Ast → Env → Res} :
    ∀ (ps : List (String × Ast)) (acc : List (String × Value)) (env : Env)
      {vs : List Value} {env' : Env},
      EvalsSeq E (ps.map Prod.snd) env vs env' →
      evalObjectProps E ps acc env
        = .ok (.object (emplaceAll acc ((ps.map Prod.fst).zip vs)), env') := by
  intro ps
  induction ps with
  | nil =>
    intro acc env vs env' h
    cases h
    simp [evalObjectProps, emplaceAll]
  | cons p rest ih =>
    intro acc env vs env' h
    obtain ⟨x, e⟩ := p
    cases h with
    | @cons _ _ _ env₁ _ v vtl he hrest =>
      rw [evalObjectProps, he]
      show evalObjectProps E rest (emplaceProp acc x v) env₁ = _
      rw [ih (emplaceProp acc x v) env₁ hrest]
      rfl

/-- Claim C1 (amended): evaluating an object literal evaluates each pair's
expression in source order and yields a fresh Object in which the value
bound to a duplicated name is the one from the FIRST pair with that name
(the source inserts with `emplace`, which does not overwrite an existing
key). -/
theorem c1_object_literal_amended (n : Nat) (ps : List (String × Ast))
    (env : Env) (vs : List Value) (env' : Env)
    (h : EvalsSeq (eval n) (ps.map Prod.snd) env vs env') :
    ∃ obj, eval (n + 1) (.object ps) env = .ok (.object obj, env')
      ∧ ∀ x, findProp obj x = findProp ((ps.map Prod.fst).zip vs) x := by
  refine ⟨emplaceAll [] ((ps.map Prod.fst).zip vs), ?_, ?_⟩
  · show evalAst (eval n) n (.object ps) env = _
    exact evalObjectProps_eq ps [] env h
  · intro x
    rw [findProp_emplaceAll]
    rfl

/-- Claim C1 (counterexample): in the literal with pairs
`a: 1, a: 2` the last pair's value is `2`, but the evaluated Object binds
`a` to `1`, the value of the first pair. -/
theorem c1_object_literal_counterexample :
    eval 2 (.object [("a", .number 1), ("a", .number 2)]) freshEnv
      = .ok (.object [("a", .number 1)], freshEnv)
    ∧ findProp [("a", Value.number 1)] "a" = some (.number 1)
    ∧ Value.number 1 ≠ Value.number 2 := by
  refine ⟨rfl, rfl, ?_⟩
  intro h
  simp at h

/-- Claim C1 (witness): the amended theorem applied to the duplicate-name
literal `a: 1, a: 2`. -/
theorem c1_object_literal_witness :
    EvalsSeq (eval 1) [Ast.number 1, Ast.number 2] freshEnv
      [Value.number 1, Value.number 2] freshEnv
    ∧ ∃ obj,
        eval 2 (.object [("a", .number 1), ("a", .number 2)]) freshEnv
          = .ok (.object obj, freshEnv)
        ∧ ∀ x, findProp obj x
            = findProp [("a", Value.number 1), ("a", Value.number 2)] x := by
  have hseq : EvalsSeq (eval 1) [Ast.number 1, Ast.number 2] freshEnv
      [Value.number 1, Value.number 2] freshEnv :=
    .cons rfl (.cons rfl (.nil freshEnv))
  exact ⟨hseq,
    c1_object_literal_amended 1 [("a", .number 1), ("a", .number 2)]
      freshEnv [Value.number 1, Value.number 2] freshEnv hseq⟩

/-- Claim C2: an `INDEX` step on an Array: an in-range index replaces the
running value by the element at that index; an out-of-range index leaves
the running value unchanged — no error and no Unit — and the chain
continues. -/
theorem c2_index_bounds (E : Ast → Env → Res) (l c : Int) (rest : List Step)
    (idxExpr : Ast) (elems : List Value) (env env₁ : Env) (i : Int)
    (hidx : E idxExpr env = .ok (.number i, env₁)) :
    (¬ (0 ≤ i ∧ i < (elems.length : Int)) →
      evalSteps E l c (.index idxExpr :: rest) (.array elems) env
        = evalSteps E l c rest (.array elems) env₁)
    ∧ (∀ w, 0 ≤ i → i < (elems.length : Int) → elems[i.toNat]? = some w →
      evalSteps E l c (.index idxExpr :: rest) (.array elems) env
        = evalSteps E l c rest w env₁) := by
  have base : evalSteps E l c (.index idxExpr :: rest) (.array elems) env
      = if 0 ≤ i ∧ i < (elems.length : Int) then
          evalSteps E l c rest (elems.getD i.toNat .unit) env₁
        else
          evalSteps E l c rest (.array elems) env₁ := by
    rw [evalSteps, hidx]
    rfl
  constructor
  · intro hnot
    rw [base, if_neg hnot]
  · intro w h0 hlt hw
    rw [base, if_pos ⟨h0, hlt⟩]
    have hg : elems.getD i.toNat .unit = w := by
      unfold List.getD
      simp [hw]
    rw [hg]

/-- Claim C2 (witness): indexing the two-element array with `5` leaves the
running value unchanged, indexing with `1` selects the second element. -/
theorem c2_index_bounds_witness :
    eval 1 (Ast.number 5) freshEnv = .ok (.number 5, freshEnv)
    ∧ evalSteps (eval 1) 0 0 [Step.index (.number 5)]
        (.array [.number 10, .number 20]) freshEnv
      = evalSteps (eval 1) 0 0 [] (.array [.number 10, .number 20]) freshEnv
    ∧ evalSteps (eval 1) 0 0 [Step.index (.number 1)]
        (.array [.number 10, .number 20]) freshEnv
      = evalSteps (eval 1) 0 0 [] (.number 20) freshEnv := by
  have h₅ := c2_index_bounds (eval 1) 0 0 [] (.number 5)
    [.number 10, .number 20] freshEnv freshEnv 5 rfl
  have h₁ := c2_index_bounds (eval 1) 0 0 [] (.number 1)
    [.number 10, .number 20] freshEnv freshEnv 1 rfl
  exact ⟨rfl, h₅.1 (by decide), h₁.2 (.number 20) (by decide) (by decide) rfl⟩

/-- Unfolding of a call with a single `ARGUMENTS` step, given the primary
expression's function value: the arity guard, then parameter binding, then
invocation of the stored behavior on the call environment carrying `self`,
the parameters, `__LINE__` and `__COLUMN__`. -/
theorem eval_call_arguments (n : Nat) (l c : Int) (prim : Ast)
    (args : List Ast) (env envp : Env) (params : List Param)
    (bh : FnBehavior)
    (hprim : eval n prim env = .ok (.function params bh, envp)) :
    eval (n + 1) (.call l c prim [.arguments args]) env
      = if params.length ≤ args.length then
          match bindParams (eval n) params args
              (Env.define freshEnv "self" (.function params bh) false) envp with
          | .ok (callEnv, env') =>
            (match applyFn (eval n) bh
                (Env.define (Env.define callEnv "__LINE__" (.number l) false)
                  "__COLUMN__" (.number c) false) with
             | .ok p => .ok (p.1, env')
             | .error e => .error e)
          | .error e => .error e
        else .error .argumentError := by
  show evalAst (eval n) n (.call l c prim [.arguments args]) env = _
  rw [evalAst, hprim]
  show evalSteps (eval n) l c [.arguments args] (.function params bh) envp = _
  rw [evalSteps]
  simp only [Value.to_function, Bind.bind, Except.bind]
  by_cases hle : params.length ≤ args.length
  · simp only [hle, if_true]
    cases hbp : bindParams (eval n) params args
        (Env.define freshEnv "self" (.function params bh) false) envp with
    | error e => rfl
    | ok p =>
      obtain ⟨callEnv, env'⟩ := p
      dsimp only
      cases applyFn (eval n) bh
          (Env.define (Env.define callEnv "__LINE__" (.number l) false)
            "__COLUMN__" (.number c) false) with
      | error e => rfl
      | ok q => obtain ⟨v', ce⟩ := q; rfl
  · simp only [hle, if_false]

/-- Binding stops at the parameter list: appending extra argument
expressions changes nothing once every parameter is covered. -/
theorem bindParams_append_extra {E : Ast → Env → Res} :
    ∀ (ps : List Param) (args extra : List Ast) (callEnv env : Env),
      ps.length ≤ args.length →
      bindParams E ps (args ++ extra) callEnv env
        = bindParams E ps args callEnv env := by
  intro ps
  induction ps with
  | nil => intro args extra callEnv env _; rfl
  | cons p ps ih =>
    intro args extra callEnv env hlen
    cases args with
    | nil => simp at hlen
    | cons a args' =>
      rw [List.cons_append, bindParams, bindParams]
      cases hEa : E a env with
      | error e => rfl
      | ok q =>
        obtain ⟨v, env'⟩ := q
        show bindParams E ps (args' ++ extra) (callEnv.define p.name v p.mutFlag) env'
            = bindParams E ps args' (callEnv.define p.name v p.mutFlag) env'
        exact ih args' extra _ env' (by simp at hlen; omega)

/-- Binding reads only the first `ps.length` argument expressions. -/
theorem bindParams_take {E : Ast → Env → Res} :
    ∀ (ps : List Param) (args : List Ast) (callEnv env : Env),
      ps.length ≤ args.length →
      bindParams E ps args callEnv env
        = bindParams E ps (args.take ps.length) callEnv env := by
  intro ps
  induction ps with
  | nil => intro args callEnv env _; rfl
  | cons p ps ih =>
    intro args callEnv env hlen
    cases args with
    | nil => simp at hlen
    | cons a args' =>
      simp only [List.length_cons, List.take_succ_cons]
      rw [bindParams, bindParams]
      cases hEa : E a env with
      | error e => rfl
      | ok q =>
        obtain ⟨v, env'⟩ := q
        show bindParams E ps args' (callEnv.define p.name v p.mutFlag) env'
            = bindParams E ps (args'.take ps.length)
                (callEnv.define p.name v p.mutFlag) env'
        exact ih args' _ env' (by simp at hlen; omega)

/-- Claim C3: a call with at least as many arguments as declared
parameters proceeds identically when extra arguments are appended (they
are silently ignored); a call with fewer arguments than parameters fails
with `ArgumentError` whatever the function's body — the body is never
evaluated. -/
theorem c3_call_arity (n : Nat) (l c : Int) (prim : Ast) (args : List Ast)
    (env envp : Env) (params : List Param) (bh : FnBehavior)
    (hprim : eval n prim env = .ok (.function params bh, envp)) :
    (args.length < params.length →
      eval (n + 1) (.call l c prim [.arguments args]) env
        = .error .argumentError)
    ∧ (params.length ≤ args.length → ∀ extra : List Ast,
      eval (n + 1) (.call l c prim [.arguments (args ++ extra)]) env
        = eval (n + 1) (.call l c prim [.arguments args]) env) := by
  constructor
  · intro hlt
    rw [eval_call_arguments n l c prim args env envp params bh hprim,
      if_neg (by omega)]
  · intro hle extra
    rw [eval_call_arguments n l c prim (args ++ extra) env envp params bh hprim,
      eval_call_arguments n l c prim args env envp params bh hprim,
      if_pos (by simp; omega), if_pos hle,
      bindParams_append_extra params args extra _ envp hle]

/-- Claim C3 (witness): calling a one-parameter identity function with no
arguments fails with `ArgumentError`; calling it with `41, 99` behaves as
calling it with `41`. -/
theorem c3_call_arity_witness :
    eval 1 (Ast.function [("", "x")] (.identifier "x")) freshEnv
      = .ok (.function [⟨"x", false⟩]
          (.closure (.identifier "x") freshEnv), freshEnv)
    ∧ eval 2 (.call 0 0 (.function [("", "x")] (.identifier "x"))
        [.arguments []]) freshEnv = .error .argumentError
    ∧ eval 2 (.call 0 0 (.function [("", "x")] (.identifier "x"))
        [.arguments [.number 41, .number 99]]) freshEnv
      = eval 2 (.call 0 0 (.function [("", "x")] (.identifier "x"))
        [.arguments [.number 41]]) freshEnv := by
  have h₀ := c3_call_arity 1 0 0 (.function [("", "x")] (.identifier "x")) []
    freshEnv freshEnv [⟨"x", false⟩] (.closure (.identifier "x") freshEnv) rfl
  have h₁ := c3_call_arity 1 0 0 (.function [("", "x")] (.identifier "x"))
    [.number 41] freshEnv freshEnv [⟨"x", false⟩]
    (.closure (.identifier "x") freshEnv) rfl
  exact ⟨rfl, h₀.1 (by decide), h₁.2 (by decide) [.number 99]⟩

/-- Claim C4: the result of a call depends only on the first
`params.length` argument expressions: two argument lists that agree on
that prefix (and both cover the parameters) evaluate to the same result
with the same final environment — the trailing excess argument
expressions are never evaluated at all. -/
theorem c4_excess_args_not_evaluated (n : Nat) (l c : Int) (prim : Ast)
    (args₁ args₂ : List Ast) (env envp : Env) (params : List Param)
    (bh : FnBehavior)
    (hprim : eval n prim env = .ok (.function params bh, envp))
    (h₁ : params.length ≤ args₁.length) (h₂ : params.length ≤ args₂.length)
    (htake : args₁.take params.length = args₂.take params.length) :
    eval (n + 1) (.call l c prim [.arguments args₁]) env
      = eval (n + 1) (.call l c prim [.arguments args₂]) env := by
  rw [eval_call_arguments n l c prim args₁ env envp params bh hprim,
    eval_call_arguments n l c prim args₂ env envp params bh hprim,
    if_pos h₁, if_pos h₂,
    bindParams_take params args₁ _ envp h₁,
    bindParams_take params args₂ _ envp h₂, htake]

/-- Claim C4 (witness): the identity function applied to `41, 99` and to
`41, 7, 8` — same first argument, different excess — gives the same
outcome. -/
theorem c4_excess_args_witness :
    eval 1 (Ast.function [("", "x")] (.identifier "x")) freshEnv
      = .ok (.function [⟨"x", false⟩]
          (.closure (.identifier "x") freshEnv), freshEnv)
    ∧ [Ast.number 41, Ast.number 99].take 1 = [Ast.number 41, Ast.number 7,
        Ast.number 8].take 1
    ∧ eval 2 (.call 0 0 (.function [("", "x")] (.identifier "x"))
        [.arguments [.number 41, .number 99]]) freshEnv
      = eval 2 (.call 0 0 (.function [("", "x")] (.identifier "x"))
        [.arguments [.number 41, .number 7, .number 8]]) freshEnv := by
  refine ⟨rfl, rfl, ?_⟩
  exact c4_excess_args_not_evaluated 1 0 0
    (.function [("", "x")] (.identifier "x"))
    [.number 41, .number 99] [.number 41, .number 7, .number 8]
    freshEnv freshEnv [⟨"x", false⟩] (.closure (.identifier "x") freshEnv)
    rfl (by decide) (by decide) rfl

/-- Claim C5 (amended): on Number operands, `+`, `-` and `*` match the
arithmetic of unbounded integers; a division or modulo whose divisor
evaluates to `0` is performed unguarded by the source and is undefined
behavior — a crash, not a recoverable `DivisionByZero` failure. -/
theorem c5_binary_arithmetic_amended (n : Nat) (ea eb : Ast)
    (env env₁ env₂ : Env) (a b : Int)
    (ha : eval n ea env = .ok (.number a, env₁))
    (hb : eval n eb env₁ = .ok (.number b, env₂)) :
    eval (n + 1) (.binExpr ea [(.add, eb)]) env = .ok (.number (a + b), env₂)
    ∧ eval (n + 1) (.binExpr ea [(.sub, eb)]) env = .ok (.number (a - b), env₂)
    ∧ eval (n + 1) (.binExpr ea [(.mul, eb)]) env = .ok (.number (a * b), env₂)
    ∧ (b = 0 → eval (n + 1) (.binExpr ea [(.div, eb)]) env = .error .crash)
    ∧ (b = 0 → eval (n + 1) (.binExpr ea [(.mod, eb)]) env = .error .crash) := by
  have base : ∀ rest : List (BinOp × Ast),
      eval (n + 1) (.binExpr ea rest) env = evalBinOps (eval n) rest a env₁ := by
    intro rest
    show evalAst (eval n) n (.binExpr ea rest) env = _
    rw [evalAst, ha]
    rfl
  have hadd : evalBinOps (eval n) [(BinOp.add, eb)] a env₁
      = .ok (.number (a + b), env₂) := by
    rw [evalBinOps, hb]
    rfl
  have hsub : evalBinOps (eval n) [(BinOp.sub, eb)] a env₁
      = .ok (.number (a - b), env₂) := by
    rw [evalBinOps, hb]
    rfl
  have hmul : evalBinOps (eval n) [(BinOp.mul, eb)] a env₁
      = .ok (.number (a * b), env₂) := by
    rw [evalBinOps, hb]
    rfl
  have hdiv : b = 0 → evalBinOps (eval n) [(BinOp.div, eb)] a env₁
      = .error .crash := by
    intro hb0
    rw [evalBinOps, hb]
    show (if b = 0 then Except.error Error.crash
      else evalBinOps (eval n) [] (a.tdiv b) env₂) = _
    rw [if_pos hb0]
  have hmod : b = 0 → evalBinOps (eval n) [(BinOp.mod, eb)] a env₁
      = .error .crash := by
    intro hb0
    rw [evalBinOps, hb]
    show (if b = 0 then Except.error Error.crash
      else evalBinOps (eval n) [] (a.tmod b) env₂) = _
    rw [if_pos hb0]
  exact ⟨by rw [base, hadd], by rw [base, hsub], by rw [base, hmul],
    fun hb0 => by rw [base, hdiv hb0], fun hb0 => by rw [base, hmod hb0]⟩

/-- Claim C5 (counterexample): `1 / 0` and `1 % 0` do not fail with the
`DivisionByZero` error the claim names — the source performs the native
division unguarded, an undefined-behavior crash. -/
theorem c5_division_by_zero_counterexample :
    eval 2 (.binExpr (.number 1) [(.div, .number 0)]) freshEnv
      = .error .crash
    ∧ eval 2 (.binExpr (.number 1) [(.mod, .number 0)]) freshEnv
      = .error .crash
    ∧ Error.crash ≠ Error.divisionByZero := by
  exact ⟨rfl, rfl, by decide⟩

/-- Claim C5 (witness): the amended theorem at `3` and `4`, and at divisor
`0`. -/
theorem c5_binary_arithmetic_witness :
    eval 1 (Ast.number 3) freshEnv = .ok (.number 3, freshEnv)
    ∧ eval 1 (Ast.number 4) freshEnv = .ok (.number 4, freshEnv)
    ∧ eval 2 (.binExpr (.number 3) [(.add, .number 4)]) freshEnv
        = .ok (.number 7, freshEnv)
    ∧ eval 2 (.binExpr (.number 3) [(.sub, .number 4)]) freshEnv
        = .ok (.number (-1), freshEnv)
    ∧ eval 2 (.binExpr (.number 3) [(.mul, .number 4)]) freshEnv
        = .ok (.number 12, freshEnv)
    ∧ eval 2 (.binExpr (.number 3) [(.div, .number 0)]) freshEnv
        = .error .crash := by
  have h := c5_binary_arithmetic_amended 1 (.number 3) (.number 4)
    freshEnv freshEnv freshEnv 3 4 rfl rfl
  have h0 := c5_binary_arithmetic_amended 1 (.number 3) (.number 0)
    freshEnv freshEnv freshEnv 3 0 rfl rfl
  exact ⟨rfl, rfl, h.1, h.2.1, h.2.2.1, h0.2.2.2.1 rfl⟩

/-! Lemmas about the spec-modelled Environment operations. -/

theorem findBinding_replaceBinding (x : String) (v : Value) :
    ∀ bs : List (String × Value × Bool),
      findBinding (replaceBinding bs x v) x
        = (findBinding bs x).map fun vb => (v, vb.2) := by
  intro bs
  induction bs with
  | nil => rfl
  | cons b rest ih =>
    obtain ⟨k, v₀, m⟩ := b
    by_cases hk : k = x
    · subst hk
      simp [replaceBinding, findBinding]
    · simp [replaceBinding, findBinding, hk, ih]

/-- Assignment updates the nearest mutable binding in place, keeping the
flag. -/
theorem assign_of_lookup_mut (x : String) (v : Value) :
    ∀ (env : Env) (v₀ : Value), env.lookup x = some (v₀, true) →
      ∃ env₂, env.assign x v = .ok env₂
        ∧ env₂.lookup x = some (v, true) := by
  intro env
  induction env with
  | nil => intro v₀ h; simp [Env.lookup] at h
  | cons s rest ih =>
    intro v₀ h
    obtain ⟨bs, o⟩ := s
    rw [Env.lookup] at h
    cases hfb : findBinding bs x with
    | some vb =>
      rw [hfb] at h
      obtain ⟨v₀', m⟩ := vb
      obtain ⟨hv₀, hm⟩ : v₀' = v₀ ∧ m = true := by
        constructor <;> · injection h with h'; cases h'; rfl
      subst hm
      refine ⟨Scope.mk (replaceBinding bs x v) o :: rest, ?_, ?_⟩
      · rw [Env.assign, hfb]
        rfl
      · rw [Env.lookup, findBinding_replaceBinding, hfb]
        rfl
    | none =>
      rw [hfb] at h
      obtain ⟨rest₂, hok, hlk⟩ := ih v₀ h
      refine ⟨Scope.mk bs o :: rest₂, ?_, ?_⟩
      · rw [Env.assign, hfb, hok]
        rfl
      · rw [Env.lookup, hfb, hlk]

/-- Assignment to a name whose nearest binding is immutable fails with
`ImmutableBinding`. -/
theorem assign_of_lookup_immut (x : String) (v : Value) :
    ∀ (env : Env) (v₀ : Value), env.lookup x = some (v₀, false) →
      env.assign x v = .error .immutableBinding := by
  intro env
  induction env with
  | nil => intro v₀ h; simp [Env.lookup] at h
  | cons s rest ih =>
    intro v₀ h
    obtain ⟨bs, o⟩ := s
    rw [Env.lookup] at h
    cases hfb : findBinding bs x with
    | some vb =>
      rw [hfb] at h
      obtain ⟨v₀', m⟩ := vb
      have hm : m = false := by injection h with h'; cases h'; rfl
      subst hm
      rw [Env.assign, hfb]
      rfl
    | none =>
      rw [hfb] at h
      rw [Env.assign, hfb, ih v₀ h]
      rfl

/-- A successful assignment implies the name was bound. -/
theorem assign_ok_has (x : String) (v : Value) :
    ∀ (env env₂ : Env), env.assign x v = .ok env₂ → env.has x = true := by
  intro env
  induction env with
  | nil => intro env₂ h; simp [Env.assign] at h
  | cons s rest ih =>
    intro env₂ h
    obtain ⟨bs, o⟩ := s
    rw [Env.assign] at h
    rw [Env.has, Env.lookup]
    cases hfb : findBinding bs x with
    | some vb => rfl
    | none =>
      rw [hfb] at h
      cases hrest2 : Env.assign rest x v with
      | error e =>
        rw [hrest2] at h
        simp [Bind.bind, Except.bind] at h
      | ok rest₂ =>
        have := ih rest₂ hrest2
        rw [Env.has] at this
        simpa [Env.lookup] using this

/-- The freshly created binding of `initialize` is found first. -/
theorem lookup_define_self (env : Env) (x : String) (v : Value) (m : Bool) :
    (env.define x v m).lookup x = some (v, m) := by
  cases env with
  | nil => simp [Env.define, Env.lookup, findBinding]
  | cons s rest =>
    obtain ⟨bs, o⟩ := s
    simp [Env.define, Env.lookup, findBinding]

/-- Bindings of other names are unaffected by `initialize`. -/
theorem lookup_define_ne (env : Env) (x y : String) (v : Value) (m : Bool)
    (h : y ≠ x) : (env.define x v m).lookup y = env.lookup y := by
  cases env with
  | nil =>
    simp [Env.define, Env.lookup, findBinding, Ne.symm h]
  | cons s rest =>
    obtain ⟨bs, o⟩ := s
    simp [Env.define, Env.lookup, findBinding, Ne.symm h]

/-- Unfolding of `eval_assignment` once the right-hand side's value is
known: bound names go through `assign`, unbound names through
`initialize` with the qualifier token's mutability. -/
theorem eval_assignment_unfold (n : Nat) (qual x : String) (rhs : Ast)
    (env : Env) (v : Value) (env₁ : Env)
    (hrhs : eval n rhs env = .ok (v, env₁)) :
    eval (n + 1) (.assignment qual x rhs) env
      = if env₁.has x then
          match env₁.assign x v with
          | .ok env₂ => .ok (v, env₂)
          | .error e => .error e
        else .ok (v, env₁.define x v (qual == "mut")) := by
  show evalAst (eval n) n (.assignment qual x rhs) env = _
  rw [evalAst, hrhs]
  show (if env₁.has x then
      (do
        let env'' ← env₁.assign x v
        Except.ok (v, env''))
    else Except.ok (v, env₁.define x v (qual == "mut"))) = _
  cases hh : env₁.has x with
  | true =>
    cases ha : env₁.assign x v with
    | ok env₂ => rfl
    | error e => rfl
  | false => rfl

/-- Claim C6: an assignment to a name not bound anywhere in the lookup
chain creates a binding in the current scope whose mutability comes from
the assignment's own qualifier token; an assignment to a name whose
nearest binding is mutable updates it in place; an assignment to a name
whose nearest binding is immutable fails with `ImmutableBinding`. -/
theorem c6_assignment_mutability (n : Nat) (qual x : String) (rhs : Ast)
    (env : Env) (v : Value) (env₁ : Env)
    (hrhs : eval n rhs env = .ok (v, env₁)) :
    (env₁.has x = false →
      eval (n + 1) (.assignment qual x rhs) env
        = .ok (v, env₁.define x v (qual == "mut"))
      ∧ (env₁.define x v (qual == "mut")).lookup x = some (v, qual == "mut"))
    ∧ (∀ v₀, env₁.lookup x = some (v₀, true) →
      ∃ env₂, env₁.assign x v = .ok env₂
        ∧ eval (n + 1) (.assignment qual x rhs) env = .ok (v, env₂)
        ∧ env₂.lookup x = some (v, true))
    ∧ (∀ v₀, env₁.lookup x = some (v₀, false) →
      eval (n + 1) (.assignment qual x rhs) env
        = .error .immutableBinding) := by
  refine ⟨?_, ?_, ?_⟩
  · intro hh
    refine ⟨?_, lookup_define_self env₁ x v _⟩
    rw [eval_assignment_unfold n qual x rhs env v env₁ hrhs, hh]
    rfl
  · intro v₀ hlk
    obtain ⟨env₂, hok, hlk₂⟩ := assign_of_lookup_mut x v env₁ v₀ hlk
    have hh : env₁.has x = true := by
      rw [Env.has, hlk]
      rfl
    refine ⟨env₂, hok, ?_, hlk₂⟩
    rw [eval_assignment_unfold n qual x rhs env v env₁ hrhs, hh, hok]
    rfl
  · intro v₀ hlk
    have hh : env₁.has x = true := by
      rw [Env.has, hlk]
      rfl
    rw [eval_assignment_unfold n qual x rhs env v env₁ hrhs, hh,
      assign_of_lookup_immut x v env₁ v₀ hlk]
    rfl

/-- Claim C6 (witness): assigning `5` to an unbound `y`, to a mutable
`x`, and to an immutable `x`. -/
theorem c6_assignment_mutability_witness :
    eval 1 (Ast.number 5) [Scope.mk [] none]
      = .ok (.number 5, [Scope.mk [] none])
    ∧ ((Env.has [Scope.mk [] none] "y") = false →
      eval 2 (.assignment "mut" "y" (.number 5)) [Scope.mk [] none]
        = .ok (.number 5,
            Env.define [Scope.mk [] none] "y" (.number 5) ("mut" == "mut"))
      ∧ (Env.define [Scope.mk [] none] "y" (.number 5)
          ("mut" == "mut")).lookup "y" = some (.number 5, "mut" == "mut"))
    ∧ (∃ env₂,
        Env.assign [Scope.mk [("x", Value.number 1, true)] none] "x"
          (.number 5) = .ok env₂
        ∧ eval 2 (.assignment "" "x" (.number 5))
            [Scope.mk [("x", Value.number 1, true)] none]
          = .ok (.number 5, env₂)
        ∧ env₂.lookup "x" = some (.number 5, true))
    ∧ eval 2 (.assignment "" "x" (.number 5))
        [Scope.mk [("x", Value.number 1, false)] none]
      = .error .immutableBinding := by
  have hfresh := c6_assignment_mutability 1 "mut" "y" (.number 5)
    [Scope.mk [] none] (.number 5) [Scope.mk [] none] rfl
  have hmut := c6_assignment_mutability 1 "" "x" (.number 5)
    [Scope.mk [("x", Value.number 1, true)] none] (.number 5)
    [Scope.mk [("x", Value.number 1, true)] none] rfl
  have himm := c6_assignment_mutability 1 "" "x" (.number 5)
    [Scope.mk [("x", Value.number 1, false)] none] (.number 5)
    [Scope.mk [("x", Value.number 1, false)] none] rfl
  exact ⟨rfl, fun h => hfresh.1 h, hmut.2.1 (.number 1) rfl,
    himm.2.2 (.number 1) rfl⟩

/-- Claim C10: a successful assignment evaluates to the assigned
right-hand-side value — not Unit — with the right-hand expression
evaluated exactly once: the final environment is the one produced by that
single evaluation, extended or updated at the target name only. -/
theorem c10_assignment_result_value (n : Nat) (qual x : String) (rhs : Ast)
    (env : Env) (v : Value) (env₁ : Env)
    (hrhs : eval n rhs env = .ok (v, env₁)) :
    (env₁.has x = false →
      eval (n + 1) (.assignment qual x rhs) env
        = .ok (v, env₁.define x v (qual == "mut")))
    ∧ (∀ env₂, env₁.assign x v = .ok env₂ →
      eval (n + 1) (.assignment qual x rhs) env = .ok (v, env₂)) := by
  constructor
  · intro hh
    rw [eval_assignment_unfold n qual x rhs env v env₁ hrhs, hh]
    rfl
  · intro env₂ hok
    rw [eval_assignment_unfold n qual x rhs env v env₁ hrhs,
      assign_ok_has x v env₁ env₂ hok, hok]
    rfl

/-- Claim C10 (witness): assigning `7` to an unbound name and to a bound
mutable name both evaluate to `7`. -/
theorem c10_assignment_result_value_witness :
    eval 1 (Ast.number 7) [Scope.mk [] none]
      = .ok (.number 7, [Scope.mk [] none])
    ∧ eval 2 (.assignment "" "z" (.number 7)) [Scope.mk [] none]
      = .ok (.number 7,
          Env.define [Scope.mk [] none] "z" (.number 7) ("" == "mut"))
    ∧ Env.assign [Scope.mk [("w", Value.number 0, true)] none] "w"
        (.number 7) = .ok [Scope.mk [("w", Value.number 7, true)] none]
    ∧ eval 2 (.assignment "" "w" (.number 7))
        [Scope.mk [("w", Value.number 0, true)] none]
      = .ok (.number 7, [Scope.mk [("w", Value.number 7, true)] none]) := by
  have hz := c10_assignment_result_value 1 "" "z" (.number 7)
    [Scope.mk [] none] (.number 7) [Scope.mk [] none] rfl
  have hw := c10_assignment_result_value 1 "" "w" (.number 7)
    [Scope.mk [("w", Value.number 0, true)] none] (.number 7)
    [Scope.mk [("w", Value.number 0, true)] none] rfl
  exact ⟨rfl, hz.1 rfl, rfl, hw.2 [Scope.mk [("w", Value.number 7, true)] none] rfl⟩

/-- Repeated `initialize` of parameter bindings into a call environment,
pairing parameters with already-evaluated argument values. -/
def defineAll : Env → List Param → List Value → Env
  | ce, [], _ => ce
  | ce, _ :: _, [] => ce
  | ce, p :: ps, v :: vs => defineAll (ce.define p.name v p.mutFlag) ps vs

/-- The parameter-binding loop, under a known sequential evaluation of the
first `ps.length` argument expressions in the caller's environment, binds
exactly those values into the call environment. -/
theorem bindParams_of_evalsSeq {E : Ast → Env → Res} :
    ∀ (ps : List Param) (args : List Ast) (cE env : Env) {vs : List Value}
      {env' : Env},
      ps.length ≤ args.length →
      EvalsSeq E (args.take ps.length) env vs env' →
      bindParams E ps args cE env = .ok (defineAll cE ps vs, env') := by
  intro ps
  induction ps with
  | nil =>
    intro args cE env vs env' hle hseq
    cases hseq
    rfl
  | cons p ps ih =>
    intro args cE env vs env' hle hseq
    cases args with
    | nil => simp at hle
    | cons a args' =>
      simp only [List.length_cons, List.take_succ_cons] at hseq
      cases hseq with
      | @cons _ _ _ env₁ _ v vtl he hrest =>
        rw [bindParams, he]
        show bindParams E ps args' (cE.define p.name v p.mutFlag) env₁ = _
        rw [ih args' _ env₁ (by simp at hle; omega) hrest]
        rfl

/-- Parameter binding leaves names outside the parameter list alone. -/
theorem lookup_defineAll_not_mem :
    ∀ (ps : List Param) (vs : List Value) (ce : Env) (y : String),
      y ∉ ps.map Param.name →
      (defineAll ce ps vs).lookup y = ce.lookup y := by
  intro ps
  induction ps with
  | nil => intro vs ce y _; rfl
  | cons p ps ih =>
    intro vs ce y h
    simp only [List.map_cons, List.mem_cons, not_or] at h
    obtain ⟨h1, h2⟩ := h
    cases vs with
    | nil => rfl
    | cons v vtl =>
      show (defineAll (ce.define p.name v p.mutFlag) ps vtl).lookup y = _
      rw [ih vtl _ y h2, lookup_define_ne ce p.name y v p.mutFlag h1]

/-- With pairwise-distinct parameter names, the `i`-th parameter ends up
bound to the `i`-th evaluated argument with its own mutability flag. -/
theorem lookup_defineAll_get :
    ∀ (ps : List Param) (vs : List Value) (ce : Env) (i : Nat) (p : Param)
      (v : Value),
      (ps.map Param.name).Nodup →
      ps.get? i = some p → vs.get? i = some v →
      (defineAll ce ps vs).lookup p.name = some (v, p.mutFlag) := by
  intro ps
  induction ps with
  | nil => intro vs ce i p v _ hp _; simp at hp
  | cons p₀ ps ih =>
    intro vs ce i p v hnd hp hv
    cases vs with
    | nil => simp at hv
    | cons v₀ vtl =>
      cases i with
      | zero =>
        have hp' : p = p₀ := by
          simp only [List.get?] at hp
          injection hp with h'
          exact h'.symm
        have hv' : v = v₀ := by
          simp only [List.get?] at hv
          injection hv with h'
          exact h'.symm
        subst hp'
        subst hv'
        show (defineAll (ce.define p.name v p.mutFlag) ps vtl).lookup p.name
          = _
        simp only [List.map_cons, List.nodup_cons] at hnd
        rw [lookup_defineAll_not_mem ps vtl _ _ hnd.1, lookup_define_self]
      | succ j =>
        show (defineAll (ce.define p₀.name v₀ p₀.mutFlag) ps vtl).lookup p.name
          = _
        simp only [List.map_cons, List.nodup_cons] at hnd
        exact ih vtl _ j p v hnd.2 (by simpa using hp) (by simpa using hv)

/-- Claim C7 (amended): for a call with enough arguments — provided the
declared parameter names are pairwise distinct and none of them is
`self`, `__LINE__` or `__COLUMN__` — the body runs in a fresh call
environment holding an immutable `self` bound to the called function
value, each parameter bound in order to the corresponding argument value
(the arguments having been evaluated in the caller's environment, left to
right), and immutable `__LINE__` / `__COLUMN__` bindings with the call
node's source position. -/
theorem c7_call_environment_amended (n : Nat) (l c : Int) (prim : Ast)
    (args : List Ast) (env envp env' : Env) (params : List Param)
    (bh : FnBehavior) (vs : List Value)
    (hprim : eval n prim env = .ok (.function params bh, envp))
    (hlen : params.length ≤ args.length)
    (hargs : EvalsSeq (eval n) (args.take params.length) envp vs env')
    (hnodup : (params.map Param.name).Nodup)
    (hself : "self" ∉ params.map Param.name)
    (hline : "__LINE__" ∉ params.map Param.name)
    (hcol : "__COLUMN__" ∉ params.map Param.name) :
    ∃ callEnv,
      eval (n + 1) (.call l c prim [.arguments args]) env
        = (match applyFn (eval n) bh callEnv with
           | .ok p => .ok (p.1, env')
           | .error e => .error e)
      ∧ callEnv.lookup "self" = some (.function params bh, false)
      ∧ (∀ i p v, params.get? i = some p → vs.get? i = some v →
          callEnv.lookup p.name = some (v, p.mutFlag))
      ∧ callEnv.lookup "__LINE__" = some (.number l, false)
      ∧ callEnv.lookup "__COLUMN__" = some (.number c, false) := by
  refine ⟨Env.define (Env.define
      (defineAll (Env.define freshEnv "self" (.function params bh) false)
        params vs)
      "__LINE__" (.number l) false) "__COLUMN__" (.number c) false,
    ?_, ?_, ?_, ?_, ?_⟩
  · rw [eval_call_arguments n l c prim args env envp params bh hprim,
      if_pos hlen,
      bindParams_of_evalsSeq params args _ envp hlen hargs]
  · rw [lookup_define_ne _ _ _ _ _ (by decide),
      lookup_define_ne _ _ _ _ _ (by decide),
      lookup_defineAll_not_mem params vs _ _ hself,
      lookup_define_self]
  · intro i p v hp hv
    have hpn : p.name ∈ params.map Param.name := by
      have : p ∈ params := List.get?_mem hp
      exact List.mem_map_of_mem Param.name this
    have hne₁ : p.name ≠ "__COLUMN__" := fun h => hcol (h ▸ hpn)
    have hne₂ : p.name ≠ "__LINE__" := fun h => hline (h ▸ hpn)
    rw [lookup_define_ne _ _ _ _ _ hne₁, lookup_define_ne _ _ _ _ _ hne₂,
      lookup_defineAll_get params vs _ i p v hnodup hp hv]
  · rw [lookup_define_ne _ _ _ _ _ (by decide), lookup_define_self]
  · rw [lookup_define_self]

/-- Claim C7 (counterexample): `self` is initialized before the
parameters, so a parameter named `self` shadows it — the body of
`fun (self) { self }` called with `42` sees `42`, not the function value;
and with duplicate parameter names `fun (x, x) { x }` called with `1, 2`
the first parameter is not visible as its argument `1` — the body sees
`2`. -/
theorem c7_call_environment_counterexample :
    eval 3 (.call 0 0 (.function [("", "self")] (.identifier "self"))
        [.arguments [.number 42]]) freshEnv
      = .ok (.number 42, freshEnv)
    ∧ Value.number 42
        ≠ .function [⟨"self", false⟩] (.closure (.identifier "self") freshEnv)
    ∧ eval 3 (.call 0 0 (.function [("", "x"), ("", "x")] (.identifier "x"))
        [.arguments [.number 1, .number 2]]) freshEnv
      = .ok (.number 2, freshEnv)
    ∧ Value.number 2 ≠ Value.number 1 := by
  refine ⟨rfl, ?_, rfl, ?_⟩
  · intro h
    cases h
  · intro h
    simp at h

/-- Claim C7 (witness): the amended theorem at a two-parameter function
called with an extra third argument. -/
theorem c7_call_environment_witness :
    eval 1 (Ast.function [("", "a"), ("mut", "b")] (.number 0)) freshEnv
      = .ok (.function [⟨"a", false⟩, ⟨"b", true⟩]
          (.closure (.number 0) freshEnv), freshEnv)
    ∧ EvalsSeq (eval 1)
        ([Ast.number 10, Ast.number 20, Ast.number 99].take 2) freshEnv
        [Value.number 10, Value.number 20] freshEnv
    ∧ ∃ callEnv,
        eval 2 (.call 7 9 (.function [("", "a"), ("mut", "b")] (.number 0))
            [.arguments [.number 10, .number 20, .number 99]]) freshEnv
          = (match applyFn (eval 1)
                (FnBehavior.closure (.number 0) freshEnv) callEnv with
             | .ok p => .ok (p.1, freshEnv)
             | .error e => .error e)
        ∧ callEnv.lookup "self"
            = some (.function [⟨"a", false⟩, ⟨"b", true⟩]
                (.closure (.number 0) freshEnv), false)
        ∧ (∀ i p v, [Param.mk "a" false, Param.mk "b" true].get? i = some p →
            [Value.number 10, Value.number 20].get? i = some v →
            callEnv.lookup p.name = some (v, p.mutFlag))
        ∧ callEnv.lookup "__LINE__" = some (.number 7, false)
        ∧ callEnv.lookup "__COLUMN__" = some (.number 9, false) := by
  have hseq : EvalsSeq (eval 1)
      ([Ast.number 10, Ast.number 20, Ast.number 99].take 2) freshEnv
      [Value.number 10, Value.number 20] freshEnv :=
    .cons rfl (.cons rfl (.nil freshEnv))
  exact ⟨rfl, hseq,
    c7_call_environment_amended 1 7 9
      (.function [("", "a"), ("mut", "b")] (.number 0))
      [.number 10, .number 20, .number 99] freshEnv freshEnv freshEnv
      [⟨"a", false⟩, ⟨"b", true⟩] (.closure (.number 0) freshEnv)
      [.number 10, .number 20] rfl (by decide) hseq
      (by simp) (by simp) (by simp) (by simp)⟩

/-- Receiver object attached to the current scope of an environment (what
`set_object` installed). -/
def Env.headObj : Env → Option (List (String × Value))
  | [] => none
  | Scope.mk _ o :: _ => o

/-- Bindings are unaffected by `set_object`. -/
theorem lookup_set_object (env : Env) (props : List (String × Value))
    (y : String) : (env.set_object props).lookup y = env.lookup y := by
  cases env with
  | nil => rfl
  | cons s rest =>
    obtain ⟨bs, o⟩ := s
    rfl

/-- Claim C8: a `DOT` step whose resolved property is a Function turns the
running value into a new Function with the same parameter list whose
behavior wraps the original behind a `this` rebinding; a non-Function
property becomes the running value as-is; and invoking the wrapped
behavior first binds `this` (immutable) to the original receiver and,
when the receiver is an Object, attaches it via `set_object`, before
running the original behavior. -/
theorem c8_property_method_binding :
    (∀ (E : Ast → Env → Res) (l c : Int) (rest : List Step)
       (props : List (String × Value)) (name : String)
       (pparams : List Param) (pbh : FnBehavior) (env : Env),
       findProp props name = some (.function pparams pbh) →
       evalSteps E l c (.dot name :: rest) (.object props) env
         = evalSteps E l c rest
             (.function pparams (.boundMethod (.object props) pbh)) env)
    ∧ (∀ (E : Ast → Env → Res) (l c : Int) (rest : List Step)
       (props : List (String × Value)) (name : String) (w : Value)
       (env : Env),
       findProp props name = some w →
       (∀ ps bh, w ≠ .function ps bh) →
       evalSteps E l c (.dot name :: rest) (.object props) env
         = evalSteps E l c rest w env)
    ∧ (∀ (E : Ast → Env → Res) (recv : Value) (bh : FnBehavior)
       (callEnv : Env),
       ∃ ce, applyFn E (.boundMethod recv bh) callEnv = applyFn E bh ce
         ∧ ce.lookup "this" = some (recv, false)
         ∧ (∀ props, recv = .object props → ce.headObj = some props)
         ∧ ((∀ props, recv ≠ .object props)
             → ce = callEnv.define "this" recv false)) := by
  refine ⟨?_, ?_, ?_⟩
  · intro E l c rest props name pparams pbh env hp
    rw [evalSteps]
    show (do
      let prop ← Value.get_property (.object props) name
      match prop with
      | .function pparams pbh =>
        evalSteps E l c rest (.function pparams (.boundMethod (.object props) pbh)) env
      | _ => evalSteps E l c rest prop env) = _
    rw [Value.get_property, hp]
    rfl
  · intro E l c rest props name w env hp hw
    rw [evalSteps]
    show (do
      let prop ← Value.get_property (.object props) name
      match prop with
      | .function pparams pbh =>
        evalSteps E l c rest (.function pparams (.boundMethod (.object props) pbh)) env
      | _ => evalSteps E l c rest prop env) = _
    rw [Value.get_property, hp]
    cases w with
    | function ps bh => exact absurd rfl (hw ps bh)
    | number m => rfl
    | boolean b => rfl
    | str s => rfl
    | array elems => rfl
    | object props' => rfl
    | unit => rfl
  · intro E recv bh callEnv
    refine ⟨match recv with
      | .object props => (callEnv.define "this" recv false).set_object props
      | _ => callEnv.define "this" recv false, rfl, ?_, ?_, ?_⟩
    · cases recv with
      | object props =>
        rw [lookup_set_object, lookup_define_self]
      | number m => exact lookup_define_self callEnv "this" _ false
      | boolean b => exact lookup_define_self callEnv "this" _ false
      | str s => exact lookup_define_self callEnv "this" _ false
      | array elems => exact lookup_define_self callEnv "this" _ false
      | function ps fb => exact lookup_define_self callEnv "this" _ false
      | unit => exact lookup_define_self callEnv "this" _ false
    · intro props hrecv
      subst hrecv
      cases callEnv with
      | nil => rfl
      | cons s rest =>
        obtain ⟨bs, o⟩ := s
        rfl
    · intro hno
      cases recv with
      | object props => exact absurd rfl (hno props)
      | number m => rfl
      | boolean b => rfl
      | str s => rfl
      | array elems => rfl
      | function ps fb => rfl
      | unit => rfl

/-! Lemmas on the short-circuiting loops of `eval_logical_or` and
`eval_logical_and`, for arbitrary operand expressions. -/

/-- A `to_bool` success pins the value down to the Boolean of that
answer. -/
theorem to_bool_ok {v : Value} {b : Bool} (h : v.to_bool = .ok b) :
    v = .boolean b := by
  cases v with
  | boolean b' =>
    obtain rfl : b' = b := by simpa [Value.to_bool] using h
    rfl
  | number m => simp [Value.to_bool] at h
  | str s => simp [Value.to_bool] at h
  | array es => simp [Value.to_bool] at h
  | object ps => simp [Value.to_bool] at h
  | function ps bh => simp [Value.to_bool] at h
  | unit => simp [Value.to_bool] at h

/-- An operand of the OR loop that evaluates to the Boolean `false` is
passed over when more operands follow. -/
theorem evalOrList_cons_falsy (n : Nat) (a b : Ast) (bl : List Ast)
    (env env' : Env) (he : eval n a env = .ok (.boolean false, env')) :
    evalOrList (eval n) (a :: b :: bl) env
      = evalOrList (eval n) (b :: bl) env' := by
  rw [evalOrList, he]
  rfl

/-- The OR loop returns the first operand value that checks truthy,
whatever follows. -/
theorem evalOrList_truthy_head (n : Nat) (t : Ast) (ts : List Ast)
    (env env₂ : Env) (v : Value) (ht : eval n t env = .ok (v, env₂))
    (hv : v.to_bool = .ok true) :
    evalOrList (eval n) (t :: ts) env = .ok (v, env₂) := by
  obtain rfl := to_bool_ok hv
  rw [evalOrList, ht]
  rfl

/-- The OR loop returns the last operand's value when it checks falsy. -/
theorem evalOrList_falsy_single (n : Nat) (t : Ast) (env env₂ : Env)
    (v : Value) (ht : eval n t env = .ok (v, env₂))
    (hv : v.to_bool = .ok false) :
    evalOrList (eval n) [t] env = .ok (v, env₂) := by
  obtain rfl := to_bool_ok hv
  rw [evalOrList, ht]
  rfl

/-- An operand of the OR loop whose value is not a Boolean of any kind —
number, string, array, object, function or unit — fails the truthiness
check with `TypeMismatch`. -/
theorem evalOrList_nonbool_head (n : Nat) (t : Ast) (ts : List Ast)
    (env env₂ : Env) (w : Value) (ht : eval n t env = .ok (w, env₂))
    (hw : ∀ b : Bool, w ≠ .boolean b) :
    evalOrList (eval n) (t :: ts) env = .error .typeMismatch := by
  cases w with
  | boolean b => exact absurd rfl (hw b)
  | number m => rw [evalOrList, ht]; rfl
  | str s => rw [evalOrList, ht]; rfl
  | array es => rw [evalOrList, ht]; rfl
  | object ps => rw [evalOrList, ht]; rfl
  | function ps bh => rw [evalOrList, ht]; rfl
  | unit => rw [evalOrList, ht]; rfl

/-- The OR loop skips any prefix of operands that evaluate, left to
right and threading the environment, to falsy Booleans. -/
theorem evalOrList_skip_falsy (n : Nat) :
    ∀ (ops : List Ast) (env env₁ : Env) (t : Ast) (ts : List Ast),
      EvalsSeq (eval n) ops env
          (List.replicate ops.length (.boolean false)) env₁ →
      evalOrList (eval n) (ops ++ t :: ts) env
        = evalOrList (eval n) (t :: ts) env₁ := by
  intro ops
  induction ops with
  | nil =>
    intro env env₁ t ts hseq
    cases hseq
    rfl
  | cons a ops' ih =>
    intro env env₁ t ts hseq
    simp only [List.length_cons, List.replicate_succ] at hseq
    cases hseq with
    | @cons _ _ _ envm _ _ _ he hrest =>
      rw [List.cons_append]
      cases htl : ops' ++ t :: ts with
      | nil => exact absurd htl (by simp)
      | cons b bl =>
        rw [evalOrList_cons_falsy n a b bl env envm he, ← htl]
        exact ih envm env₁ t ts hrest

/-- An operand of the AND loop that evaluates to the Boolean `true` is
passed over when more operands follow. -/
theorem evalAndList_cons_truthy (n : Nat) (a b : Ast) (bl : List Ast)
    (env env' : Env) (he : eval n a env = .ok (.boolean true, env')) :
    evalAndList (eval n) (a :: b :: bl) env
      = evalAndList (eval n) (b :: bl) env' := by
  rw [evalAndList, he]
  rfl

/-- The AND loop returns the first operand value that checks falsy,
whatever follows. -/
theorem evalAndList_falsy_head (n : Nat) (t : Ast) (ts : List Ast)
    (env env₂ : Env) (v : Value) (ht : eval n t env = .ok (v, env₂))
    (hv : v.to_bool = .ok false) :
    evalAndList (eval n) (t :: ts) env = .ok (v, env₂) := by
  obtain rfl := to_bool_ok hv
  rw [evalAndList, ht]
  rfl

/-- The AND loop returns the last operand's value when it checks
truthy. -/
theorem evalAndList_truthy_single (n : Nat) (t : Ast) (env env₂ : Env)
    (v : Value) (ht : eval n t env = .ok (v, env₂))
    (hv : v.to_bool = .ok true) :
    evalAndList (eval n) [t] env = .ok (v, env₂) := by
  obtain rfl := to_bool_ok hv
  rw [evalAndList, ht]
  rfl

/-- An operand of the AND loop whose value is not a Boolean of any kind
fails the truthiness check with `TypeMismatch`. -/
theorem evalAndList_nonbool_head (n : Nat) (t : Ast) (ts : List Ast)
    (env env₂ : Env) (w : Value) (ht : eval n t env = .ok (w, env₂))
    (hw : ∀ b : Bool, w ≠ .boolean b) :
    evalAndList (eval n) (t :: ts) env = .error .typeMismatch := by
  cases w with
  | boolean b => exact absurd rfl (hw b)
  | number m => rw [evalAndList, ht]; rfl
  | str s => rw [evalAndList, ht]; rfl
  | array es => rw [evalAndList, ht]; rfl
  | object ps => rw [evalAndList, ht]; rfl
  | function ps bh => rw [evalAndList, ht]; rfl
  | unit => rw [evalAndList, ht]; rfl

/-- The AND loop skips any prefix of operands that evaluate, left to
right and threading the environment, to truthy Booleans. -/
theorem evalAndList_skip_truthy (n : Nat) :
    ∀ (ops : List Ast) (env env₁ : Env) (t : Ast) (ts : List Ast),
      EvalsSeq (eval n) ops env
          (List.replicate ops.length (.boolean true)) env₁ →
      evalAndList (eval n) (ops ++ t :: ts) env
        = evalAndList (eval n) (t :: ts) env₁ := by
  intro ops
  induction ops with
  | nil =>
    intro env env₁ t ts hseq
    cases hseq
    rfl
  | cons a ops' ih =>
    intro env env₁ t ts hseq
    simp only [List.length_cons, List.replicate_succ] at hseq
    cases hseq with
    | @cons _ _ _ envm _ _ _ he hrest =>
      rw [List.cons_append]
      cases htl : ops' ++ t :: ts with
      | nil => exact absurd htl (by simp)
      | cons b bl =>
        rw [evalAndList_cons_truthy n a b bl env envm he, ← htl]
        exact ih envm env₁ t ts hrest

/-- Claim C9: for arbitrary operand expressions, logical OR and AND
evaluate left to right with short-circuiting — when every operand before
`t` evaluates (threading the environment) to a falsy Boolean and `t`'s
value checks truthy, OR returns `t`'s value, the operands after `t`
never being evaluated; when no operand is truthy, OR returns the last
operand's value; dually, AND returns the first operand value that checks
falsy, or the last operand's value when all are truthy; and an operand
of any non-Boolean kind reaching the truthiness check makes the whole
expression fail with `TypeMismatch` (for OR that check is only reached
when the expression has more than one operand: a one-operand OR passes
the operand through unchecked). -/
theorem c9_logical_short_circuit :
    (∀ (n : Nat) (ops : List Ast) (t : Ast) (rest : List Ast)
       (env env₁ env₂ : Env) (v : Value),
      EvalsSeq (eval n) ops env
          (List.replicate ops.length (.boolean false)) env₁ →
      eval n t env₁ = .ok (v, env₂) → v.to_bool = .ok true →
      eval (n + 1) (.logicalOr (ops ++ t :: rest)) env = .ok (v, env₂))
    ∧ (∀ (n : Nat) (ops : List Ast) (t : Ast) (env env₁ env₂ : Env)
       (v : Value),
      EvalsSeq (eval n) ops env
          (List.replicate ops.length (.boolean false)) env₁ →
      eval n t env₁ = .ok (v, env₂) → v.to_bool = .ok false →
      eval (n + 1) (.logicalOr (ops ++ [t])) env = .ok (v, env₂))
    ∧ (∀ (n : Nat) (ops : List Ast) (t : Ast) (rest : List Ast)
       (env env₁ env₂ : Env) (w : Value),
      EvalsSeq (eval n) ops env
          (List.replicate ops.length (.boolean false)) env₁ →
      eval n t env₁ = .ok (w, env₂) → (∀ b : Bool, w ≠ .boolean b) →
      (ops ≠ [] ∨ rest ≠ []) →
      eval (n + 1) (.logicalOr (ops ++ t :: rest)) env
        = .error .typeMismatch)
    ∧ (∀ (n : Nat) (ops : List Ast) (t : Ast) (rest : List Ast)
       (env env₁ env₂ : Env) (v : Value),
      EvalsSeq (eval n) ops env
          (List.replicate ops.length (.boolean true)) env₁ →
      eval n t env₁ = .ok (v, env₂) → v.to_bool = .ok false →
      eval (n + 1) (.logicalAnd (ops ++ t :: rest)) env = .ok (v, env₂))
    ∧ (∀ (n : Nat) (ops : List Ast) (t : Ast) (env env₁ env₂ : Env)
       (v : Value),
      EvalsSeq (eval n) ops env
          (List.replicate ops.length (.boolean true)) env₁ →
      eval n t env₁ = .ok (v, env₂) → v.to_bool = .ok true →
      eval (n + 1) (.logicalAnd (ops ++ [t])) env = .ok (v, env₂))
    ∧ (∀ (n : Nat) (ops : List Ast) (t : Ast) (rest : List Ast)
       (env env₁ env₂ : Env) (w : Value),
      EvalsSeq (eval n) ops env
          (List.replicate ops.length (.boolean true)) env₁ →
      eval n t env₁ = .ok (w, env₂) → (∀ b : Bool, w ≠ .boolean b) →
      eval (n + 1) (.logicalAnd (ops ++ t :: rest)) env
        = .error .typeMismatch) := by
  refine ⟨?_, ?_, ?_, ?_, ?_, ?_⟩
  · intro n ops t rest env env₁ env₂ v hseq ht hv
    cases ops with
    | nil =>
      cases hseq
      cases rest with
      | nil =>
        show eval n t env = _
        rw [ht]
      | cons r rs =>
        show evalOrList (eval n) (t :: r :: rs) env = _
        exact evalOrList_truthy_head n t (r :: rs) env env₂ v ht hv
    | cons a ops' =>
      rw [List.cons_append]
      cases htl : ops' ++ t :: rest with
      | nil => exact absurd htl (by simp)
      | cons b bl =>
        show evalOrList (eval n) (a :: b :: bl) env = _
        rw [← htl]
        exact (evalOrList_skip_falsy n (a :: ops') env env₁ t rest hseq).trans
          (evalOrList_truthy_head n t rest env₁ env₂ v ht hv)
  · intro n ops t env env₁ env₂ v hseq ht hv
    cases ops with
    | nil =>
      cases hseq
      show eval n t env = _
      rw [ht]
    | cons a ops' =>
      rw [List.cons_append]
      cases htl : ops' ++ [t] with
      | nil => exact absurd htl (by simp)
      | cons b bl =>
        show evalOrList (eval n) (a :: b :: bl) env = _
        rw [← htl]
        exact (evalOrList_skip_falsy n (a :: ops') env env₁ t [] hseq).trans
          (evalOrList_falsy_single n t env₁ env₂ v ht hv)
  · intro n ops t rest env env₁ env₂ w hseq ht hw hcond
    cases ops with
    | nil =>
      cases hseq
      cases rest with
      | nil =>
        rcases hcond with h | h
        · exact absurd rfl h
        · exact absurd rfl h
      | cons r rs =>
        show evalOrList (eval n) (t :: r :: rs) env = _
        exact evalOrList_nonbool_head n t (r :: rs) env env₂ w ht hw
    | cons a ops' =>
      rw [List.cons_append]
      cases htl : ops' ++ t :: rest with
      | nil => exact absurd htl (by simp)
      | cons b bl =>
        show evalOrList (eval n) (a :: b :: bl) env = _
        rw [← htl]
        exact (evalOrList_skip_falsy n (a :: ops') env env₁ t rest hseq).trans
          (evalOrList_nonbool_head n t rest env₁ env₂ w ht hw)
  · intro n ops t rest env env₁ env₂ v hseq ht hv
    show evalAndList (eval n) (ops ++ t :: rest) env = _
    exact (evalAndList_skip_truthy n ops env env₁ t rest hseq).trans
      (evalAndList_falsy_head n t rest env₁ env₂ v ht hv)
  · intro n ops t env env₁ env₂ v hseq ht hv
    show evalAndList (eval n) (ops ++ [t]) env = _
    exact (evalAndList_skip_truthy n ops env env₁ t [] hseq).trans
      (evalAndList_truthy_single n t env₁ env₂ v ht hv)
  · intro n ops t rest env env₁ env₂ w hseq ht hw
    show evalAndList (eval n) (ops ++ t :: rest) env = _
    exact (evalAndList_skip_truthy n ops env env₁ t rest hseq).trans
      (evalAndList_nonbool_head n t rest env₁ env₂ w ht hw)

/-- Claim C9 (witness): the theorem at concrete inputs — an effectful
first operand (an assignment, so the environment visibly threads), an
unbound identifier after the short-circuit point that is never
evaluated, and a String-valued operand (via a bound name) reaching the
truthiness check. -/
theorem c9_logical_short_circuit_witness :
    EvalsSeq (eval 2) [Ast.assignment "mut" "p" (.boolean false)] freshEnv
      [Value.boolean false] [Scope.mk [("p", Value.boolean false, true)] none]
    ∧ eval 2 (Ast.boolean true)
        [Scope.mk [("p", Value.boolean false, true)] none]
      = .ok (.boolean true, [Scope.mk [("p", Value.boolean false, true)] none])
    ∧ eval 3 (.logicalOr [.assignment "mut" "p" (.boolean false),
        .boolean true, .identifier "boom"]) freshEnv
      = .ok (.boolean true, [Scope.mk [("p", Value.boolean false, true)] none])
    ∧ eval 2 (.logicalAnd [.boolean true, .boolean false,
        .identifier "boom"]) freshEnv = .ok (.boolean false, freshEnv)
    ∧ eval 1 (Ast.identifier "s")
        [Scope.mk [("s", Value.str "hi", false)] none]
      = .ok (.str "hi", [Scope.mk [("s", Value.str "hi", false)] none])
    ∧ eval 2 (.logicalOr [.boolean false, .identifier "s"])
        [Scope.mk [("s", Value.str "hi", false)] none]
      = .error .typeMismatch
    ∧ eval 2 (.logicalAnd [.identifier "s"])
        [Scope.mk [("s", Value.str "hi", false)] none]
      = .error .typeMismatch := by
  have h := c9_logical_short_circuit
  have hstep : eval 2 (Ast.assignment "mut" "p" (.boolean false)) freshEnv
      = .ok (.boolean false,
          [Scope.mk [("p", Value.boolean false, true)] none]) := rfl
  have hseq : EvalsSeq (eval 2)
      [Ast.assignment "mut" "p" (.boolean false)] freshEnv
      [Value.boolean false]
      [Scope.mk [("p", Value.boolean false, true)] none] :=
    .cons hstep (.nil [Scope.mk [("p", Value.boolean false, true)] none])
  have hstepF : eval 1 (Ast.boolean false)
      [Scope.mk [("s", Value.str "hi", false)] none]
      = .ok (.boolean false,
          [Scope.mk [("s", Value.str "hi", false)] none]) := rfl
  have hseqF : EvalsSeq (eval 1) [Ast.boolean false]
      [Scope.mk [("s", Value.str "hi", false)] none]
      [Value.boolean false]
      [Scope.mk [("s", Value.str "hi", false)] none] :=
    .cons hstepF (.nil [Scope.mk [("s", Value.str "hi", false)] none])
  have hstepT : eval 1 (Ast.boolean true) freshEnv
      = .ok (.boolean true, freshEnv) := rfl
  have hseqT : EvalsSeq (eval 1) [Ast.boolean true] freshEnv
      [Value.boolean true] freshEnv :=
    .cons hstepT (.nil freshEnv)
  refine ⟨hseq, rfl, ?_, ?_, rfl, ?_, ?_⟩
  · exact h.1 2 [.assignment "mut" "p" (.boolean false)] (.boolean true)
      [.identifier "boom"] freshEnv
      [Scope.mk [("p", Value.boolean false, true)] none]
      [Scope.mk [("p", Value.boolean false, true)] none]
      (.boolean true) hseq rfl rfl
  · exact h.2.2.2.1 1 [.boolean true] (.boolean false)
      [.identifier "boom"] freshEnv freshEnv freshEnv
      (.boolean false) hseqT rfl rfl
  · exact h.2.2.1 1 [.boolean false] (.identifier "s") [] _ _ _
      (.str "hi") hseqF rfl (by intro b hb; cases hb) (Or.inl (by simp))
  · exact h.2.2.2.2.2 1 [] (.identifier "s") [] _ _ _
      (.str "hi") (.nil _) rfl (by intro b hb; cases hb)

end Culebra
